import Mathlib

/-!
Verification of the node-resource reconciliation and ranking pipeline of
`server/bash_scripts/CPU_RAM.sh`.

The script reads two feeds:
* the summary feed (`sinfo -N -h -o "%N|%C|%m"`): one line per node,
  pipe-delimited `name|alloc/idle/other/total|memMB`;
* the detail feed (`scontrol show node`): a stream of whitespace-separated
  `Key=Value` tokens, where `NodeName=` markers set the current node and
  `RealMemory=` / `AllocMem=` / `FreeMem=` tokens record values for it.

Strings are embedded as lists of characters, so that the splitting done by
awk (`-F'|'`, `split(...,"/")`, `split(...,"=")`) is ordinary structural
recursion.  Arithmetic is over `Nat`/`Int` exactly where awk computes it.
-/

abbrev Str := List Char

/-- Awk numeric coercion `s + 0` restricted to the nonnegative integer
fields the feeds contain: skip leading whitespace, read leading digits,
anything else contributes 0. -/
def awkNat (s : Str) : Nat :=
  ((s.dropWhile Char.isWhitespace).takeWhile Char.isDigit).foldl
    (fun n c => 10 * n + (c.toNat - 48)) 0

/-- Split a character list on a separator character, the way awk
`split`/field-splitting does for a one-character separator: the empty
string splits to one empty field. -/
def csplit (c : Char) : Str → List Str
  | [] => [[]]
  | x :: xs =>
    match csplit c xs with
    | [] => [[]]
    | f :: rest => if x = c then [] :: f :: rest else (x :: f) :: rest

/-- One parsed summary line: `node = $1`, the CPU quadruple from `$2`
split on `/`, and `mem = $3 + 0`.  Missing fields are empty strings and
coerce to 0, exactly as unset awk fields do. -/
structure SRec where
  node : Str
  cpuA : Nat
  cpuI : Nat
  cpuO : Nat
  cpuT : Nat
  mem : Nat
deriving DecidableEq

def parseSummaryLine (line : Str) : SRec :=
  let fs := csplit '|' line
  let q := csplit '/' (fs.getD 1 [])
  { node := fs.getD 0 []
    cpuA := awkNat (q.getD 0 [])
    cpuI := awkNat (q.getD 1 [])
    cpuO := awkNat (q.getD 2 [])
    cpuT := awkNat (q.getD 3 [])
    mem := awkNat (fs.getD 2 []) }

/-- The state of the detail-feed scan in the awk `BEGIN` block: the
current node `cur` and the three associative arrays `real`, `alloc`,
`freem` (`none` models a key not present in the array). -/
structure DState where
  cur : Str
  real : Str → Option Nat
  alloc : Str → Option Nat
  freem : Str → Option Nat

def updMap (m : Str → Option Nat) (k : Str) (v : Nat) : Str → Option Nat :=
  fun x => if x = k then some v else m x

/-- Processing of one whitespace-separated token of the detail feed:
`split(tok, kv, "=")`, then dispatch on `kv[1]`, assigning `kv[2] + 0`
into the matching array under `cur` when `cur` is nonempty. -/
def stepTok (st : DState) (tok : Str) : DState :=
  let kv := csplit '=' tok
  let key := kv.getD 0 []
  let val := kv.getD 1 []
  if key = "NodeName".data then { st with cur := val }
  else if key = "RealMemory".data then
    (if st.cur ≠ [] then { st with real := updMap st.real st.cur (awkNat val) } else st)
  else if key = "AllocMem".data then
    (if st.cur ≠ [] then { st with alloc := updMap st.alloc st.cur (awkNat val) } else st)
  else if key = "FreeMem".data then
    (if st.cur ≠ [] then { st with freem := updMap st.freem st.cur (awkNat val) } else st)
  else st

def initDState : DState :=
  { cur := [], real := fun _ => none, alloc := fun _ => none, freem := fun _ => none }

/-- The detail-feed scan over the token stream (the `BEGIN` block of both
awk passes; `cur` persists across lines, so only the token order matters). -/
def parseDetail (toks : List Str) : DState :=
  toks.foldl stepTok initDState

/-- The availability formula before the lower clamp:
`FreeMem` if present, else `RealMemory - AllocMem` if both present, else 0. -/
def availRaw (d : DState) (n : Str) : Int :=
  match d.freem n with
  | some f => (f : Int)
  | none =>
    match d.real n, d.alloc n with
    | some r, some a => (r : Int) - (a : Int)
    | _, _ => 0

/-- The reconciled per-node available memory: the precedence formula with
the lower clamp `if (avail < 0) avail = 0` applied (lines 54-58 and
101-102 of the script). -/
def availMem (d : DState) (n : Str) : Int :=
  let a := availRaw d n
  if a < 0 then 0 else a

/-- The resolved per-node memory total: `RealMemory` when the detail feed
has it, else the summary line memory field (`realmem_disp` / `mem_total`). -/
def memTotalRes (d : DState) (r : SRec) : Nat :=
  match d.real r.node with
  | some v => v
  | none => r.mem

/-- The canonical per-node record held by the per-node maps of the first
awk pass: `idle_cpu`, `total_cpu_per_node`, `realmem_disp`, `avail_mem`. -/
structure Snapshot where
  node : Str
  cpuIdle : Nat
  cpuTotal : Nat
  memTotal : Nat
  memAvail : Int
deriving DecidableEq

def mkSnapshot (d : DState) (r : SRec) : Snapshot :=
  { node := r.node
    cpuIdle := r.cpuI
    cpuTotal := r.cpuT
    memTotal := memTotalRes d r
    memAvail := availMem d r.node }

/-- The record that ends up stored under node name `n` in the per-node
maps: awk assignment per line, so the last summary line with this name
wins.  For `n` drawn from `nodeKeys` the filter is nonempty and the
default record is never used. -/
def lastRec (recs : List SRec) (n : Str) : SRec :=
  ((recs.filter (fun r => r.node == n)).getLast?).getD
    { node := n, cpuA := 0, cpuI := 0, cpuO := 0, cpuT := 0, mem := 0 }

/-- The distinct node names of the summary feed: the key set of the
per-node awk maps (enumeration order is irrelevant downstream, since the
rankings re-sort with a total order). -/
def nodeKeys (recs : List SRec) : List Str :=
  (recs.map (fun r => r.node)).dedup

/-- The canonical snapshot set of one cycle: one record per distinct
summary node name, reconciled against the detail maps. -/
def snapshots (sumLines : List Str) (toks : List Str) : List Snapshot :=
  let recs := sumLines.map parseSummaryLine
  let d := parseDetail toks
  (nodeKeys recs).map (fun n => mkSnapshot d (lastRec recs n))

/-- The accumulator of the first awk pass: `total_cpus` and `total_mem`. -/
structure Totals where
  totalCpus : Nat
  totalMem : Nat
deriving DecidableEq

/-- One summary line of the first pass: `total_cpus += t` and
`total_mem += (node in real) ? real[node] : mem_total`. -/
def step1 (d : DState) (ac : Totals) (r : SRec) : Totals :=
  { totalCpus := ac.totalCpus + r.cpuT
    totalMem := ac.totalMem + memTotalRes d r }

def clusterTotals (sumLines : List Str) (toks : List Str) : Totals :=
  (sumLines.map parseSummaryLine).foldl (step1 (parseDetail toks)) ⟨0, 0⟩

/-- One candidate line of a ranking, as printed by the script:
`%0Nd key | node | extra` (extra is the CPU total, resp. the resolved
memory total). -/
structure Entry where
  key : Nat
  node : Str
  extra : Nat
deriving DecidableEq

/-- The part of the printed line after the zero-padded key field; for
equal keys the padded key fields are byte-identical, so the last-resort
whole-line comparison of `sort` reduces to this tail. -/
def tailStr (e : Entry) : Str :=
  e.node ++ '|' :: Nat.toDigits 10 e.extra

/-- Byte-wise (code-point) lexicographic comparison, the C-locale order
`sort` uses for its last-resort whole-line comparison. -/
def strLe : Str → Str → Bool
  | [], _ => true
  | _ :: _, [] => false
  | a :: as, b :: bs =>
    if a.toNat < b.toNat then true
    else if b.toNat < a.toNat then false
    else strLe as bs

/-- The total order `sort -t"|" -k1,1nr` imposes on the printed candidate
lines: key numerically descending, and for equal keys the ascending
byte order of the rest of the line. -/
def codeLe (e₁ e₂ : Entry) : Prop :=
  e₂.key < e₁.key ∨ (e₁.key = e₂.key ∧ strLe (tailStr e₁) (tailStr e₂) = true)

instance : DecidableRel codeLe := fun e₁ e₂ =>
  inferInstanceAs (Decidable (_ ∨ _))

/-- Candidates of the idle-CPU ranking: one line per key of the per-node
maps, `idle_cpu[k] | k | total_cpu_per_node[k]`. -/
def idleEntries (sumLines : List Str) : List Entry :=
  let recs := sumLines.map parseSummaryLine
  (nodeKeys recs).map (fun n =>
    { key := (lastRec recs n).cpuI, node := n, extra := (lastRec recs n).cpuT })

/-- Candidates of the memory ranking: the second awk pass prints one line
per summary line (no per-node dedup), `avail | node | mem_total`. -/
def memEntries (sumLines : List Str) (toks : List Str) : List Entry :=
  let d := parseDetail toks
  (sumLines.map parseSummaryLine).map (fun r =>
    { key := (availMem d r.node).toNat, node := r.node, extra := memTotalRes d r })

def rankSorted (entries : List Entry) : List Entry :=
  List.insertionSort codeLe entries

/-- `sort -t"|" -k1,1nr | head -5`. -/
def rankTop (entries : List Entry) : List Entry :=
  (rankSorted entries).take 5

def topIdle (sumLines : List Str) : List Entry :=
  rankTop (idleEntries sumLines)

def topMem (sumLines : List Str) (toks : List Str) : List Entry :=
  rankTop (memEntries sumLines toks)

/-- The ordering the specification asks for: criterion descending, ties
broken by ascending node name alone. -/
def specLe (e₁ e₂ : Entry) : Prop :=
  e₂.key < e₁.key ∨ (e₁.key = e₂.key ∧ strLe e₁.node e₂.node = true)

instance : DecidableRel specLe := fun e₁ e₂ =>
  inferInstanceAs (Decidable (_ ∨ _))

/-- The ranking the specification describes, for comparison with the one
the script computes. -/
def specRank (entries : List Entry) : List Entry :=
  (List.insertionSort specLe entries).take 5

/-- Follows the specification wording for the duplicate-marker behaviour:
a repeated node marker overwrites the in-progress, possibly incomplete
detail record for that node: it clears the three memory keys recorded for that
node before the following tokens are applied. -/
def stepTokReset (st : DState) (tok : Str) : DState :=
  let kv := csplit '=' tok
  let key := kv.getD 0 []
  let val := kv.getD 1 []
  if key = "NodeName".data then
    { cur := val
      real := fun x => if x = val then none else st.real x
      alloc := fun x => if x = val then none else st.alloc x
      freem := fun x => if x = val then none else st.freem x }
  else stepTok st tok

/-- The detail-feed scan as the specification describes it (record reset
on a duplicate marker), for comparison with `parseDetail`. -/
def parseDetailReset (toks : List Str) : DState :=
  toks.foldl stepTokReset initDState

/-- A `NodeName=...` token. -/
def nodeNameTok (n : Str) : Str := "NodeName".data ++ '=' :: n

/-- A `FreeMem=...` token. -/
def freeMemTok (v : Str) : Str := "FreeMem".data ++ '=' :: v

/-- Agreement of two detail states at one node name: all three arrays
hold the same entry for that name. -/
abbrev dAgree (d d2 : DState) (n : Str) : Prop :=
  d.real n = d2.real n ∧ d.alloc n = d2.alloc n ∧ d.freem n = d2.freem n

/-- A ranked entry enriched with usage figures. -/
structure RankedReport where
  node : Str
  value : Nat
  total : Nat
  used : Int
  usagePercent : Rat
deriving DecidableEq

/-- Modelled from the spec: the enrichment of each ranked entry with
`used = total - available/idle` and `usage_percent = used/total*100`
(0 when `total = 0`) is performed by the repository API layer, which is
not among the extracted sources; only its endpoint documentation is.
The definition follows the specification wording. -/
def enrichEntry (e : Entry) : RankedReport :=
  { node := e.node
    value := e.key
    total := e.extra
    used := (e.extra : Int) - (e.key : Int)
    usagePercent :=
      if e.extra = 0 then 0
      else (((e.extra : Int) - (e.key : Int) : Int) : Rat) * 100 / (e.extra : Rat) }

def enrichedTopIdle (sumLines : List Str) : List RankedReport :=
  (topIdle sumLines).map enrichEntry

def enrichedTopMem (sumLines toks : List Str) : List RankedReport :=
  (topMem sumLines toks).map enrichEntry

/-- Summary blob of the worked example of the specification. -/
def exSum : List Str := ["nodeA|10/54/0/64|257698".data]

/-- Detail blob of the worked example of the specification. -/
def exToks : List Str :=
  ["NodeName=nodeA".data, "RealMemory=257698".data,
   "AllocMem=100000".data, "FreeMem=150000".data]

/-- One-node summary blob with allocated memory exceeding total. -/
def c1Sum : List Str := ["m|0/0/0/4|100".data]

/-- Detail blob with `AllocMem` exceeding `RealMemory` and no `FreeMem`. -/
def c1Toks : List Str :=
  ["NodeName=m".data, "RealMemory=0".data, "AllocMem=1".data]

/-- Two-node summary blob with equal idle CPUs and equal free memory,
where one node name is a proper initial segment of the other. -/
def c3Sum : List Str := ["a|0/1/0/1|7".data, "ab|0/1/0/1|7".data]

/-- Detail blob giving both nodes of `c3Sum` the same free memory. -/
def c3Toks : List Str :=
  ["NodeName=a".data, "FreeMem=5".data, "NodeName=ab".data, "FreeMem=5".data]

/-- Summary blob in which the same node name occurs on two lines. -/
def c5DupSum : List Str := ["x|1/2/0/3|10".data, "x|1/2/0/3|10".data]

/-- One-node summary blob used to instantiate universally quantified
results at a concrete input. -/
def w5Sum : List Str := ["a|1/2/0/3|10".data]

/-- Detail blob mentioning only a node that is absent from `w5Sum`. -/
def w5Toks : List Str := ["NodeName=zzz".data, "FreeMem=999".data]

/-- Detail blob with a duplicate `NodeName=X` marker: `FreeMem` is
recorded before the second marker, `RealMemory`/`AllocMem` after it. -/
def c8Toks : List Str :=
  ["NodeName=X".data, "FreeMem=50".data, "NodeName=X".data,
   "RealMemory=10".data, "AllocMem=4".data]

/-- Summary blob whose detail feed reports more free than total memory. -/
def c10Sum : List Str := ["n|0/0/0/4|100".data]

/-- Detail blob with `FreeMem` exceeding `RealMemory`. -/
def c10Toks : List Str :=
  ["NodeName=n".data, "RealMemory=100".data, "FreeMem=150".data]

theorem avail_nonneg (d : DState) (n : Str) : 0 ≤ availMem d n := by
  unfold availMem
  dsimp only
  split <;> omega

theorem foldl_step1 (d : DState) :
    ∀ (recs : List SRec) (ac : Totals),
      recs.foldl (step1 d) ac =
        { totalCpus := ac.totalCpus + (recs.map (fun r => r.cpuT)).sum
          totalMem := ac.totalMem + (recs.map (fun r => memTotalRes d r)).sum }
  | [], ac => by simp
  | r :: recs, ac => by
    rw [List.foldl_cons, foldl_step1 d (recs) (step1 d ac r)]
    simp only [step1, List.map_cons, List.sum_cons, Totals.mk.injEq]
    omega

/-- C1 counterexample: with `RealMemory=0`, `AllocMem=1` and no `FreeMem`,
the formula of the claim gives `RealMemory - AllocMem = -1`, but the
reconciled snapshot reports 0: the script clamps the difference at zero,
so the resolved value is not the bare precedence formula. -/
theorem c1_counterexample :
    snapshots c1Sum c1Toks =
      [{ node := "m".data, cpuIdle := 0, cpuTotal := 4, memTotal := 0, memAvail := 0 }] ∧
    availRaw (parseDetail c1Toks) "m".data = -1 ∧
    availMem (parseDetail c1Toks) "m".data ≠ availRaw (parseDetail c1Toks) "m".data := by
  refine ⟨by decide, by decide, by decide⟩

/-- C1 (amended): the reconciled `memory_available_mb` is the strict
precedence formula (FreeMem if present; else RealMemory - AllocMem if
both present; else 0) clamped below at zero, and on the worked example
of the specification the snapshot is exactly as claimed
(cpu_idle 54, cpu_total 64, memory_total_mb 257698,
memory_available_mb 150000, FreeMem taking precedence). -/
theorem c1_amended :
    (∀ (d : DState) (n : Str), availMem d n = max (availRaw d n) 0) ∧
    snapshots exSum exToks =
      [{ node := "nodeA".data, cpuIdle := 54, cpuTotal := 64,
         memTotal := 257698, memAvail := 150000 }] := by
  constructor
  · intro d n
    unfold availMem
    dsimp only
    split <;> omega
  · decide

/-- C2: for every detail feed and every snapshot of the cycle, the
reconciled `memory_available_mb` is nonnegative, whatever combination of
`RealMemory`, `AllocMem`, `FreeMem` values the detail feed carries. -/
theorem c2_avail_nonneg (sumLines toks : List Str) (s : Snapshot)
    (hs : s ∈ snapshots sumLines toks) : 0 ≤ s.memAvail := by
  unfold snapshots at hs
  simp only [List.mem_map] at hs
  obtain ⟨n, -, rfl⟩ := hs
  exact avail_nonneg _ _

/-- C2 witness: a concrete adversarial cycle (allocated exceeding total)
whose snapshot the theorem applies to. -/
theorem c2_avail_nonneg_witness :
    ({ node := "m".data, cpuIdle := 0, cpuTotal := 4, memTotal := 0, memAvail := 0 } : Snapshot)
        ∈ snapshots c1Sum c1Toks ∧
    (0 : Int) ≤ ({ node := "m".data, cpuIdle := 0, cpuTotal := 4, memTotal := 0, memAvail := 0 } : Snapshot).memAvail :=
  ⟨by decide, c2_avail_nonneg c1Sum c1Toks _ (by decide)⟩

/-- C4: the cluster totals accumulated by the first pass equal the sum of
the CPU-total components over all summary lines, and the sum over all
summary lines of the resolved memory total (`RealMemory` when the detail
feed has the node, else the summary memory field). -/
theorem c4_cluster_totals (sumLines toks : List Str) :
    (clusterTotals sumLines toks).totalCpus =
      ((sumLines.map parseSummaryLine).map (fun r => r.cpuT)).sum ∧
    (clusterTotals sumLines toks).totalMem =
      ((sumLines.map parseSummaryLine).map (fun r =>
        match (parseDetail toks).real r.node with
        | some v => v
        | none => r.mem)).sum := by
  unfold clusterTotals
  rw [foldl_step1]
  constructor
  · simp
  · simp [memTotalRes]

/-- C10: with `FreeMem=150` and `RealMemory=100` the snapshot reports
more available than total memory (no upper clamp), and the ranked memory
entry shows the same excess. -/
theorem c10_no_upper_clamp :
    snapshots c10Sum c10Toks =
      [{ node := "n".data, cpuIdle := 0, cpuTotal := 4, memTotal := 100, memAvail := 150 }] ∧
    (∃ s ∈ snapshots c10Sum c10Toks, (s.memTotal : Int) < s.memAvail) ∧
    (∃ e ∈ topMem c10Sum c10Toks, e.extra < e.key) := by
  refine ⟨by decide, by decide, by decide⟩

theorem strLe_total : ∀ (a b : Str), strLe a b = true ∨ strLe b a = true
  | [], _ => Or.inl rfl
  | _ :: _, [] => Or.inr rfl
  | a :: as, b :: bs => by
    simp only [strLe]
    rcases Nat.lt_trichotomy a.toNat b.toNat with h | h | h
    · exact Or.inl (by rw [if_pos h])
    · rw [h]
      simp only [lt_self_iff_false, if_false]
      exact strLe_total as bs
    · exact Or.inr (by rw [if_pos h])

theorem strLe_trans : ∀ (a b c : Str),
    strLe a b = true → strLe b c = true → strLe a c = true
  | [], _, _, _, _ => rfl
  | _ :: _, [], _, h, _ => by simp [strLe] at h
  | _ :: _, _ :: _, [], _, h => by simp [strLe] at h
  | a :: as, b :: bs, c :: cs, h1, h2 => by
    simp only [strLe] at h1 h2 ⊢
    split at h1
    case isTrue hab =>
      split at h2
      case isTrue hbc => rw [if_pos (by omega)]
      case isFalse hbc =>
        split at h2
        case isTrue hcb => simp at h2
        case isFalse hcb => rw [if_pos (by omega)]
    case isFalse hab =>
      split at h1
      case isTrue hba => simp at h1
      case isFalse hba =>
        split at h2
        case isTrue hbc => rw [if_pos (by omega)]
        case isFalse hbc =>
          split at h2
          case isTrue hcb => simp at h2
          case isFalse hcb =>
            rw [if_neg (by omega), if_neg (by omega)]
            exact strLe_trans as bs cs h1 h2

theorem codeLe_total (e₁ e₂ : Entry) : codeLe e₁ e₂ ∨ codeLe e₂ e₁ := by
  unfold codeLe
  rcases Nat.lt_trichotomy e₁.key e₂.key with h | h | h
  · exact Or.inr (Or.inl h)
  · rcases strLe_total (tailStr e₁) (tailStr e₂) with hs | hs
    · exact Or.inl (Or.inr ⟨h, hs⟩)
    · exact Or.inr (Or.inr ⟨h.symm, hs⟩)
  · exact Or.inl (Or.inl h)

theorem codeLe_trans (a b c : Entry) : codeLe a b → codeLe b c → codeLe a c := by
  intro h1 h2
  unfold codeLe at h1 h2 ⊢
  rcases h1 with h1 | ⟨h1e, h1s⟩ <;> rcases h2 with h2 | ⟨h2e, h2s⟩
  · exact Or.inl (by omega)
  · exact Or.inl (by omega)
  · exact Or.inl (by omega)
  · exact Or.inr ⟨h1e.trans h2e, strLe_trans _ _ _ h1s h2s⟩

theorem rankTop_spec (es : List Entry) :
    (rankTop es).length ≤ 5 ∧
    List.Sorted codeLe (rankTop es) ∧
    ∃ rest, es.Perm (rankTop es ++ rest) ∧
      (∀ x ∈ rankTop es, ∀ y ∈ rest, codeLe x y) ∧
      ((rankTop es).length < 5 → rest = []) := by
  haveI : IsTotal Entry codeLe := ⟨codeLe_total⟩
  haveI : IsTrans Entry codeLe := ⟨codeLe_trans⟩
  refine ⟨?_, ?_, (rankSorted es).drop 5, ?_, ?_, ?_⟩
  · rw [rankTop, List.length_take]
    exact Nat.min_le_left _ _
  · exact List.Pairwise.sublist (List.take_sublist 5 _) (List.sorted_insertionSort codeLe es)
  · rw [rankTop, List.take_append_drop]
    exact (List.perm_insertionSort codeLe es).symm
  · have h : List.Sorted codeLe (rankSorted es) := List.sorted_insertionSort codeLe es
    rw [show rankSorted es = rankTop es ++ (rankSorted es).drop 5 from
      (List.take_append_drop 5 (rankSorted es)).symm] at h
    exact fun x hx y hy => (List.pairwise_append.mp h).2.2 x hx y hy
  · intro hlt
    rw [rankTop, List.length_take] at hlt
    exact List.drop_eq_nil_of_le (by omega)

/-- C3 counterexample: two nodes `a` and `ab` tie on available memory;
ascending node name would list `a` first, but the script lists `ab`
first, because the tie is broken by the whole printed line and the
field-separator byte compares greater than the letter `b`. -/
theorem c3_counterexample :
    topMem c3Sum c3Toks =
      [{ key := 5, node := "ab".data, extra := 7 },
       { key := 5, node := "a".data, extra := 7 }] ∧
    specRank (memEntries c3Sum c3Toks) =
      [{ key := 5, node := "a".data, extra := 7 },
       { key := 5, node := "ab".data, extra := 7 }] ∧
    topMem c3Sum c3Toks ≠ specRank (memEntries c3Sum c3Toks) := by
  refine ⟨by decide, by decide, by decide⟩

/-- C3 (amended): each ranked list holds at most 5 entries and is the
first five of the total order the script sorts by: criterion descending,
ties broken by the ascending byte order of the remainder of the printed
line (node name, a separator byte, then the total field).  That order is
ascending node name except when one tied node name is a proper initial
segment of another, in which case the longer name comes first. -/
theorem c3_amended (sumLines toks : List Str) :
    ((topIdle sumLines).length ≤ 5 ∧ List.Sorted codeLe (topIdle sumLines) ∧
      ∃ rest, (idleEntries sumLines).Perm (topIdle sumLines ++ rest) ∧
        (∀ x ∈ topIdle sumLines, ∀ y ∈ rest, codeLe x y) ∧
        ((topIdle sumLines).length < 5 → rest = [])) ∧
    ((topMem sumLines toks).length ≤ 5 ∧ List.Sorted codeLe (topMem sumLines toks) ∧
      ∃ rest, (memEntries sumLines toks).Perm (topMem sumLines toks ++ rest) ∧
        (∀ x ∈ topMem sumLines toks, ∀ y ∈ rest, codeLe x y) ∧
        ((topMem sumLines toks).length < 5 → rest = [])) :=
  ⟨rankTop_spec _, rankTop_spec _⟩

/-- C3 witness: the amended statement instantiated at the two-node cycle
of the counterexample. -/
theorem c3_amended_witness :
    (topIdle c3Sum).length ≤ 5 ∧ (topMem c3Sum c3Toks).length ≤ 5 :=
  ⟨(c3_amended c3Sum c3Toks).1.1, (c3_amended c3Sum c3Toks).2.1⟩

theorem csplit_ne_nil (c : Char) (s : Str) : csplit c s ≠ [] := by
  cases s with
  | nil => simp [csplit]
  | cons x xs =>
    simp only [csplit]
    cases h : csplit c xs with
    | nil => simp
    | cons f rest =>
      dsimp only
      split <;> simp

theorem csplit_of_not_mem {c : Char} : ∀ {s : Str}, c ∉ s → csplit c s = [s]
  | [], _ => rfl
  | x :: xs, h => by
    have hx : x ≠ c := fun e => h (e ▸ List.mem_cons_self x xs)
    have hxs : c ∉ xs := fun m => h (List.mem_cons_of_mem _ m)
    simp only [csplit, csplit_of_not_mem hxs]
    rw [if_neg hx]

theorem csplit_append_sep (c : Char) : ∀ (xs ys : Str), c ∉ xs →
    csplit c (xs ++ c :: ys) = xs :: csplit c ys
  | [], ys, _ => by
    simp only [List.nil_append, csplit]
    cases h : csplit c ys with
    | nil => exact absurd h (csplit_ne_nil c ys)
    | cons f rest =>
      dsimp only
      simp
  | x :: xs, ys, h => by
    have hx : x ≠ c := fun e => h (e ▸ List.mem_cons_self x xs)
    have hxs : c ∉ xs := fun m => h (List.mem_cons_of_mem _ m)
    rw [List.cons_append]
    simp only [csplit]
    rw [csplit_append_sep c xs ys hxs]
    dsimp only
    rw [if_neg hx]

theorem csplit_keyval {key val : Str} (hk : '=' ∉ key) (hv : '=' ∉ val) :
    csplit '=' (key ++ '=' :: val) = [key, val] := by
  rw [csplit_append_sep '=' key val hk, csplit_of_not_mem hv]

theorem stepTok_marker (st : DState) {n : Str} (hn : '=' ∉ n) :
    stepTok st (nodeNameTok n) = { st with cur := n } := by
  unfold stepTok nodeNameTok
  rw [csplit_keyval (by decide) hn]
  simp

theorem stepTok_freeMem (st : DState) {v : Str} (hv : '=' ∉ v) (hc : st.cur ≠ []) :
    stepTok st (freeMemTok v) = { st with freem := updMap st.freem st.cur (awkNat v) } := by
  unfold stepTok freeMemTok
  rw [csplit_keyval (by decide) hv]
  simp only [List.getD_cons_zero, List.getD_cons_succ]
  rw [if_neg (by decide), if_neg (by decide), if_neg (by decide)]
  simp [hc]

theorem parseSummaryLine_no_pipe {line : Str} (h : '|' ∉ line) :
    parseSummaryLine line =
      { node := line, cpuA := 0, cpuI := 0, cpuO := 0, cpuT := 0, mem := 0 } := by
  unfold parseSummaryLine
  rw [csplit_of_not_mem h]
  rfl

theorem lastRec_node (recs : List SRec) (n : Str) : (lastRec recs n).node = n := by
  unfold lastRec
  cases h : (recs.filter (fun r => r.node == n)).getLast? with
  | none => simp
  | some r =>
    have hm : r ∈ recs.filter (fun r => r.node == n) := List.mem_of_mem_getLast? h
    have := (List.mem_filter.mp hm).2
    simp only [Option.getD_some]
    exact eq_of_beq this

/-- C6 counterexample: the summary line `foo` has no field separator at
all, yet it is not skipped: it yields a snapshot under node name `foo`
with all-zero numbers and a candidate entry in the idle-CPU ranking. -/
theorem c6_counterexample :
    snapshots ["foo".data] [] =
      [{ node := "foo".data, cpuIdle := 0, cpuTotal := 0, memTotal := 0, memAvail := 0 }] ∧
    topIdle ["foo".data] = [{ key := 0, node := "foo".data, extra := 0 }] ∧
    clusterTotals ["foo".data] [] = { totalCpus := 0, totalMem := 0 } := by
  refine ⟨by decide, by decide, by decide⟩

theorem snapshots_map_node (sumLines toks : List Str) :
    (snapshots sumLines toks).map (fun s => s.node) =
      nodeKeys (sumLines.map parseSummaryLine) := by
  unfold snapshots
  rw [List.map_map]
  have h : ∀ n ∈ nodeKeys (sumLines.map parseSummaryLine),
      ((fun s => s.node) ∘
        (fun n => mkSnapshot (parseDetail toks)
          (lastRec (sumLines.map parseSummaryLine) n))) n = n := by
    intro n _
    simp [mkSnapshot, lastRec_node]
  rw [List.map_congr_left h]
  simp

theorem idleEntries_map_node (sumLines : List Str) :
    (idleEntries sumLines).map (fun e => e.node) =
      nodeKeys (sumLines.map parseSummaryLine) := by
  unfold idleEntries
  rw [List.map_map]
  have h : ∀ n ∈ nodeKeys (sumLines.map parseSummaryLine),
      ((fun e => e.node) ∘ (fun n => (⟨(lastRec (sumLines.map parseSummaryLine) n).cpuI, n, (lastRec (sumLines.map parseSummaryLine) n).cpuT⟩ : Entry))) n = n :=
    fun n _ => rfl
  rw [List.map_congr_left h]
  simp

theorem mem_nodeKeys_of_mem {line : Str} {sumLines : List Str} (h : line ∈ sumLines) :
    (parseSummaryLine line).node ∈ nodeKeys (sumLines.map parseSummaryLine) := by
  unfold nodeKeys
  exact List.mem_dedup.mpr (List.mem_map_of_mem _ (List.mem_map_of_mem _ h))

theorem clusterTotals_eq (sumLines toks : List Str) :
    clusterTotals sumLines toks =
      { totalCpus := ((sumLines.map parseSummaryLine).map (fun r => r.cpuT)).sum
        totalMem := ((sumLines.map parseSummaryLine).map
          (fun r => memTotalRes (parseDetail toks) r)).sum } := by
  unfold clusterTotals
  rw [foldl_step1]
  simp

/-- C6 (amended): a summary line with a wrong pipe-field or slash-token
count is not skipped: every missing field or token is the empty string
and coerces to 0 (in particular a missing third field gives memory 0 and
a short CPU quadruple gives 0 for its missing components), and every
summary line, malformed or not, wherever it sits in the feed, still
yields its parsed record: its first pipe-field names a canonical
snapshot and an idle-ranking candidate, the line contributes one
memory-ranking candidate carrying its parsed values, its parsed
CPU-total and resolved memory flow into the cluster totals, and the
cycle is not aborted. -/
theorem c6_amended (line : Str) (pre post toks : List Str) :
    ((csplit '|' line).length ≤ 2 → (parseSummaryLine line).mem = 0) ∧
    ((csplit '/' ((csplit '|' line).getD 1 [])).length ≤ 1 →
      (parseSummaryLine line).cpuI = 0) ∧
    ((csplit '/' ((csplit '|' line).getD 1 [])).length ≤ 3 →
      (parseSummaryLine line).cpuT = 0) ∧
    (parseSummaryLine line).node = (csplit '|' line).getD 0 [] ∧
    (parseSummaryLine line).node ∈
      (snapshots (pre ++ line :: post) toks).map (fun s => s.node) ∧
    (parseSummaryLine line).node ∈
      (idleEntries (pre ++ line :: post)).map (fun e => e.node) ∧
    ({ key := (availMem (parseDetail toks) (parseSummaryLine line).node).toNat,
       node := (parseSummaryLine line).node,
       extra := memTotalRes (parseDetail toks) (parseSummaryLine line) } : Entry) ∈
      memEntries (pre ++ line :: post) toks ∧
    (memEntries (pre ++ line :: post) toks).length = pre.length + 1 + post.length ∧
    (clusterTotals (pre ++ line :: post) toks).totalCpus =
      (clusterTotals pre toks).totalCpus + (parseSummaryLine line).cpuT +
        (clusterTotals post toks).totalCpus ∧
    (clusterTotals (pre ++ line :: post) toks).totalMem =
      (clusterTotals pre toks).totalMem +
        memTotalRes (parseDetail toks) (parseSummaryLine line) +
        (clusterTotals post toks).totalMem := by
  have hmem : line ∈ pre ++ line :: post :=
    List.mem_append_right _ (List.mem_cons_self _ _)
  refine ⟨?_, ?_, ?_, rfl, ?_, ?_, ?_, ?_, ?_, ?_⟩
  · intro h
    unfold parseSummaryLine
    dsimp only
    rw [List.getD_eq_default _ _ h]
    rfl
  · intro h
    unfold parseSummaryLine
    dsimp only
    rw [List.getD_eq_default _ _ h]
    rfl
  · intro h
    unfold parseSummaryLine
    dsimp only
    rw [List.getD_eq_default _ _ h]
    rfl
  · rw [snapshots_map_node]
    exact mem_nodeKeys_of_mem hmem
  · rw [idleEntries_map_node]
    exact mem_nodeKeys_of_mem hmem
  · unfold memEntries
    exact List.mem_map_of_mem _ (List.mem_map_of_mem _ hmem)
  · unfold memEntries
    simp only [List.length_map, List.length_append, List.length_cons]
    omega
  · rw [clusterTotals_eq, clusterTotals_eq, clusterTotals_eq]
    dsimp only
    simp only [List.map_append, List.map_cons, List.sum_append, List.sum_cons]
    omega
  · rw [clusterTotals_eq, clusterTotals_eq, clusterTotals_eq]
    dsimp only
    simp only [List.map_append, List.map_cons, List.sum_append, List.sum_cons]
    omega

/-- C6 witness: the amended statement instantiated at the line `a|1/2/3`,
which has both a wrong pipe-field count (2 instead of 3) and a wrong
slash-token count (3 instead of 4): its memory and CPU-total parse to 0
and it still yields a snapshot. -/
theorem c6_amended_witness :
    ((csplit '|' "a|1/2/3".data).length ≤ 2) ∧
    ((csplit '/' ((csplit '|' "a|1/2/3".data).getD 1 [])).length ≤ 3) ∧
    (parseSummaryLine "a|1/2/3".data).mem = 0 ∧
    (parseSummaryLine "a|1/2/3".data).cpuT = 0 ∧
    (parseSummaryLine "a|1/2/3".data).node ∈
      (snapshots ([] ++ "a|1/2/3".data :: []) []).map (fun s => s.node) :=
  ⟨by decide, by decide,
   (c6_amended "a|1/2/3".data [] [] []).1 (by decide),
   (c6_amended "a|1/2/3".data [] [] []).2.2.1 (by decide),
   (c6_amended "a|1/2/3".data [] [] []).2.2.2.2.1⟩

/-- C8 counterexample: tokens `NodeName=X FreeMem=50 NodeName=X
RealMemory=10 AllocMem=4`.  Were the record reset at the duplicate
marker, only `RealMemory`/`AllocMem` would survive and the resolved
availability would be 10 - 4 = 6; the script keeps the earlier
`FreeMem=50` and resolves 50. -/
theorem c8_counterexample :
    availMem (parseDetail c8Toks) "X".data = 50 ∧
    availMem (parseDetailReset c8Toks) "X".data = 6 ∧
    availMem (parseDetail c8Toks) "X".data ≠ availMem (parseDetailReset c8Toks) "X".data := by
  refine ⟨by decide, by decide, by decide⟩

/-- C8 (amended): a duplicate node marker only resets the current-node
context; the keys already recorded for that node persist, and each
memory key is individually last-write-wins: a later assignment while the
node is current overwrites exactly that key. -/
theorem c8_amended (toks : List Str) (n v : Str)
    (hn : '=' ∉ n) (hv : '=' ∉ v) (hne : n ≠ []) :
    (parseDetail (toks ++ [nodeNameTok n])).cur = n ∧
    (parseDetail (toks ++ [nodeNameTok n])).real = (parseDetail toks).real ∧
    (parseDetail (toks ++ [nodeNameTok n])).alloc = (parseDetail toks).alloc ∧
    (parseDetail (toks ++ [nodeNameTok n])).freem = (parseDetail toks).freem ∧
    (parseDetail (toks ++ [nodeNameTok n, freeMemTok v])).freem n = some (awkNat v) := by
  have h1 : parseDetail (toks ++ [nodeNameTok n]) =
      stepTok (parseDetail toks) (nodeNameTok n) := by
    unfold parseDetail
    rw [List.foldl_append]
    rfl
  have h2 : parseDetail (toks ++ [nodeNameTok n, freeMemTok v]) =
      stepTok (stepTok (parseDetail toks) (nodeNameTok n)) (freeMemTok v) := by
    unfold parseDetail
    rw [List.foldl_append]
    rfl
  rw [h1, h2, stepTok_marker _ hn, stepTok_freeMem _ hv hne]
  refine ⟨rfl, rfl, rfl, rfl, ?_⟩
  simp [updMap]

/-- C8 witness: the amended statement instantiated at an empty prior
token stream, node `Y` and value `7`. -/
theorem c8_amended_witness :
    ('=' ∉ "Y".data) ∧ ("Y".data ≠ ([] : Str)) ∧
    (parseDetail ([] ++ [nodeNameTok "Y".data])).cur = "Y".data ∧
    (parseDetail ([] ++ [nodeNameTok "Y".data, freeMemTok "7".data])).freem "Y".data =
      some (awkNat "7".data) :=
  ⟨by decide, by decide,
   (c8_amended [] "Y".data "7".data (by decide) (by decide) (by decide)).1,
   (c8_amended [] "Y".data "7".data (by decide) (by decide) (by decide)).2.2.2.2⟩

theorem memTotalRes_agree {d d2 : DState} {r : SRec}
    (h : d.real r.node = d2.real r.node) : memTotalRes d r = memTotalRes d2 r := by
  unfold memTotalRes
  rw [h]

theorem availMem_agree {d d2 : DState} {n : Str} (h : dAgree d d2 n) :
    availMem d n = availMem d2 n := by
  obtain ⟨h1, h2, h3⟩ := h
  unfold availMem availRaw
  rw [h1, h2, h3]

theorem mkSnapshot_agree {d d2 : DState} {r : SRec} (h : dAgree d d2 r.node) :
    mkSnapshot d r = mkSnapshot d2 r := by
  unfold mkSnapshot
  rw [memTotalRes_agree h.1, availMem_agree h]

/-- C5 counterexample: a summary feed whose two node lines carry the same
node name yields a single entry in the per-node maps (not one per line),
while the memory-ranking candidate list still gains one candidate per
line, so node lines and map entries are not in bijection. -/
theorem c5_counterexample :
    c5DupSum.length = 2 ∧
    (snapshots c5DupSum []).length = 1 ∧
    (memEntries c5DupSum []).length = 2 := by
  refine ⟨by decide, by decide, by decide⟩

/-- C5 (amended): every distinct node name of the summary feed yields
exactly one canonical snapshot (a duplicate line overwrites it), every
ranked entry names a summary node, and nodes appearing only in the
detail feed contribute nothing: the snapshots, cluster totals and memory
ranking are unchanged by any detail feed that agrees on the summary
nodes. -/
theorem c5_amended (sumLines toks toks2 : List Str) :
    ((snapshots sumLines toks).map (fun s => s.node) =
      nodeKeys (sumLines.map parseSummaryLine)) ∧
    (∀ e ∈ topIdle sumLines,
      e.node ∈ (sumLines.map parseSummaryLine).map (fun r => r.node)) ∧
    (∀ e ∈ topMem sumLines toks,
      e.node ∈ (sumLines.map parseSummaryLine).map (fun r => r.node)) ∧
    ((∀ n ∈ (sumLines.map parseSummaryLine).map (fun r => r.node),
        dAgree (parseDetail toks) (parseDetail toks2) n) →
      snapshots sumLines toks = snapshots sumLines toks2 ∧
      clusterTotals sumLines toks = clusterTotals sumLines toks2 ∧
      topMem sumLines toks = topMem sumLines toks2) := by
  refine ⟨?_, ?_, ?_, ?_⟩
  · unfold snapshots
    rw [List.map_map]
    have h : ∀ n ∈ nodeKeys (sumLines.map parseSummaryLine),
        ((fun s => s.node) ∘
          (fun n => mkSnapshot (parseDetail toks)
            (lastRec (sumLines.map parseSummaryLine) n))) n = n := by
      intro n _
      simp [mkSnapshot, lastRec_node]
    rw [List.map_congr_left h]
    simp
  · intro e he
    unfold topIdle rankTop rankSorted at he
    have he2 : e ∈ idleEntries sumLines := by
      have := List.take_subset 5 _ he
      simpa using this
    unfold idleEntries at he2
    simp only [List.mem_map] at he2
    obtain ⟨n, hn, rfl⟩ := he2
    unfold nodeKeys at hn
    exact List.mem_dedup.mp hn
  · intro e he
    unfold topMem rankTop rankSorted at he
    have he2 : e ∈ memEntries sumLines toks := by
      have := List.take_subset 5 _ he
      simpa using this
    unfold memEntries at he2
    simp only [List.mem_map] at he2
    obtain ⟨r, hr, rfl⟩ := he2
    obtain ⟨a, ha, rfl⟩ := hr
    exact List.mem_map_of_mem _ (List.mem_map_of_mem _ ha)
  · intro hag
    have hsnap : snapshots sumLines toks = snapshots sumLines toks2 := by
      unfold snapshots
      apply List.map_congr_left
      intro n hn
      have hn2 : n ∈ (sumLines.map parseSummaryLine).map (fun r => r.node) := by
        unfold nodeKeys at hn
        exact List.mem_dedup.mp hn
      have ha := hag n hn2
      have hlast := lastRec_node (sumLines.map parseSummaryLine) n
      exact mkSnapshot_agree (by rw [hlast]; exact ha)
    refine ⟨hsnap, ?_, ?_⟩
    · have hm : (sumLines.map parseSummaryLine).map
            (fun r => memTotalRes (parseDetail toks) r) =
          (sumLines.map parseSummaryLine).map
            (fun r => memTotalRes (parseDetail toks2) r) := by
        apply List.map_congr_left
        intro r hr
        exact memTotalRes_agree (hag r.node (List.mem_map_of_mem _ hr)).1
      unfold clusterTotals
      rw [foldl_step1, foldl_step1, hm]
    · have hme : memEntries sumLines toks = memEntries sumLines toks2 := by
        unfold memEntries
        apply List.map_congr_left
        intro r hr
        have ha := hag r.node (List.mem_map_of_mem _ hr)
        rw [availMem_agree ha, memTotalRes_agree ha.1]
      unfold topMem
      rw [hme]

/-- C5 witness: the amended statement instantiated at a one-node summary
feed; the second detail feed mentions only a node absent from the
summary feed, and the snapshots coincide. -/
theorem c5_amended_witness :
    ((snapshots w5Sum []).map (fun s => s.node) =
      nodeKeys (w5Sum.map parseSummaryLine)) ∧
    snapshots w5Sum [] = snapshots w5Sum w5Toks :=
  ⟨(c5_amended w5Sum [] w5Toks).1,
   ((c5_amended w5Sum [] w5Toks).2.2.2 (by decide)).1⟩

/-- C9: every enriched ranked entry carries `used` equal to total minus
the ranking value (idle CPUs, resp. available memory) and
`usage_percent` equal to `used/total*100`, reported as 0 when the total
is 0 (spec-modelled: the enrichment lives in the API layer, which is not
among the extracted sources). -/
theorem c9_ranked_usage (sumLines toks : List Str) (r : RankedReport)
    (hr : r ∈ enrichedTopIdle sumLines ∨ r ∈ enrichedTopMem sumLines toks) :
    r.used = (r.total : Int) - (r.value : Int) ∧
    r.usagePercent =
      (if r.total = 0 then 0 else (r.used : Rat) * 100 / (r.total : Rat)) := by
  have h : ∃ e : Entry, r = enrichEntry e := by
    rcases hr with h | h
    · unfold enrichedTopIdle at h
      simp only [List.mem_map] at h
      obtain ⟨e, -, rfl⟩ := h
      exact ⟨e, rfl⟩
    · unfold enrichedTopMem at h
      simp only [List.mem_map] at h
      obtain ⟨e, -, rfl⟩ := h
      exact ⟨e, rfl⟩
  obtain ⟨e, rfl⟩ := h
  exact ⟨rfl, rfl⟩

/-- C9 witness: the single idle-ranking entry of a one-node cycle,
with used 1 of 3 CPUs and usage percentage 100/3. -/
theorem c9_ranked_usage_witness :
    ((enrichEntry { key := 2, node := "a".data, extra := 3 }) ∈ enrichedTopIdle w5Sum ∨
      (enrichEntry { key := 2, node := "a".data, extra := 3 }) ∈ enrichedTopMem w5Sum []) ∧
    (enrichEntry { key := 2, node := "a".data, extra := 3 }).used =
      ((enrichEntry { key := 2, node := "a".data, extra := 3 }).total : Int) -
        ((enrichEntry { key := 2, node := "a".data, extra := 3 }).value : Int) :=
  have ht : topIdle w5Sum = [{ key := 2, node := "a".data, extra := 3 }] := by decide
  have hm : (enrichEntry { key := 2, node := "a".data, extra := 3 }) ∈ enrichedTopIdle w5Sum := by
    unfold enrichedTopIdle
    rw [ht]
    simp
  ⟨Or.inl hm, (c9_ranked_usage w5Sum [] _ (Or.inl hm)).1⟩
